import Mathlib

/-!
Verification development for the Beancount journal backend
(src/backend/journal_api.py).

The Python code is shallowly embedded: every definition below mirrors the
corresponding Python function or code region.  Calendar dates are modelled
as natural numbers whose order agrees with both chronological order and
the lexicographic order of their ISO renderings, so date comparisons and
the sort key x.date are faithful.  File contents are strings; the code
always reads a whole file, splits on the newline character, edits the
line list and writes the joined result back, and the embedding does the
same.  Python dictionaries with a known key set become structures, and
values that the backend only ever formats or compares as text are kept
as strings.
-/

set_option maxRecDepth 4096

namespace JournalApi

/-- Metadata attached by the beancount parser to every directive: the
originating file name, the 1-based line number, and any user supplied
key/value pairs.  A directive that exists only as a pending edit payload
carries neither filename nor lineno, hence the Option types. -/
structure Meta where
  filename : Option String
  lineno : Option Nat
  userMeta : List (String × String)
deriving DecidableEq, Repr

/-- One posting of a transaction, at the granularity the backend reads:
the account name and the optional units (number rendered as text, and
the currency). -/
structure TxnPosting where
  account : String
  units : Option (String × String)
deriving DecidableEq, Repr

/-- A parsed directive.  The constructors mirror the beancount data
classes the backend dispatches on (data.Transaction, data.Note,
data.Balance, data.Pad, data.Commodity, data.Price); every other
directive kind is collapsed into otherDirective, which the backend
classifies as the kind unknown. -/
inductive Entry where
  | transaction (meta : Meta) (date : Nat) (flag : String) (payee : Option String)
      (narration : String) (tags : List String) (links : List String)
      (postings : List TxnPosting)
  | note (meta : Meta) (date : Nat) (account : String) (comment : String)
  | balance (meta : Meta) (date : Nat) (account : String)
      (amountNumber : String) (amountCurrency : String)
  | pad (meta : Meta) (date : Nat) (account : String) (sourceAccount : String)
  | commodity (meta : Meta) (date : Nat) (currency : String)
  | price (meta : Meta) (date : Nat) (currency : String)
  | otherDirective (meta : Meta) (date : Nat)
deriving DecidableEq, Repr

/-- The meta dictionary of a directive. -/
def Entry.meta : Entry → Meta
  | .transaction m .. => m
  | .note m .. => m
  | .balance m .. => m
  | .pad m .. => m
  | .commodity m .. => m
  | .price m .. => m
  | .otherDirective m .. => m

/-- The date of a directive. -/
def Entry.date : Entry → Nat
  | .transaction _ d .. => d
  | .note _ d .. => d
  | .balance _ d .. => d
  | .pad _ d .. => d
  | .commodity _ d .. => d
  | .price _ d .. => d
  | .otherDirective _ d .. => d

/-- get_entry_type: the string tag the backend assigns to a directive. -/
def get_entry_type : Entry → String
  | .transaction .. => "transaction"
  | .note .. => "note"
  | .balance .. => "balance"
  | .pad .. => "pad"
  | _ => "unknown"

/-- Serialisation of a key/value list, used by the hash model below. -/
def serialize_pairs (l : List (String × String)) : String :=
  String.intercalate ";" (l.map fun kv => kv.1 ++ "=" ++ kv.2)

/-- Serialisation of the meta dictionary, including the volatile fields
filename and lineno exactly as the beancount digest does. -/
def serialize_meta (m : Meta) : String :=
  "filename:" ++ m.filename.getD "None" ++ "|lineno:" ++
    (match m.lineno with
      | some n => Nat.repr n
      | none => "None") ++ "|" ++ serialize_pairs m.userMeta

/-- Serialisation of one posting. -/
def serialize_posting (p : TxnPosting) : String :=
  p.account ++
    (match p.units with
      | some nc => " " ++ nc.1 ++ " " ++ nc.2
      | none => "")

/-- Serialisation of the semantic content of a directive: its kind tag,
date, and every content field, but not its meta. -/
def serialize_content : Entry → String
  | .transaction _ d flag payee narr tags links ps =>
    "Transaction|" ++ Nat.repr d ++ "|" ++ flag ++ "|" ++ payee.getD "None" ++
      "|" ++ narr ++ "|" ++ String.intercalate "," tags ++ "|" ++
      String.intercalate "," links ++ "|" ++
      String.intercalate ";" (ps.map serialize_posting)
  | .note _ d a c => "Note|" ++ Nat.repr d ++ "|" ++ a ++ "|" ++ c
  | .balance _ d a n c => "Balance|" ++ Nat.repr d ++ "|" ++ a ++ "|" ++ n ++ "|" ++ c
  | .pad _ d a s => "Pad|" ++ Nat.repr d ++ "|" ++ a ++ "|" ++ s
  | .commodity _ d c => "Commodity|" ++ Nat.repr d ++ "|" ++ c
  | .price _ d c => "Price|" ++ Nat.repr d ++ "|" ++ c
  | .otherDirective _ d => "Other|" ++ Nat.repr d

/-- Modelled from the spec: the external library function
beancount.core.compare.hash_entry, which the backend calls but whose code
is not part of this repository.  With exclude_meta set to False it
digests every field of the directive tuple, the meta dictionary with its
filename and lineno entries included; with exclude_meta set to True the
meta dictionary is left out.  The MD5 digest step is modelled as the
serialised field string itself, a collision free abstraction that keeps
exactly the dependencies of the real digest. -/
def hash_entry (e : Entry) (excludeMeta : Bool) : String :=
  (if excludeMeta then "" else serialize_meta e.meta ++ "||") ++ serialize_content e

/-- generate_entry_id: the identity the backend assigns to a directive.
The source calls hash_entry(entry, exclude_meta=False). -/
def generate_entry_id (e : Entry) : String :=
  hash_entry e false

/-- A sample transaction whose only varying piece is its source line
number; all semantic fields are fixed. -/
def sample_txn (ln : Nat) : Entry :=
  .transaction ⟨some "ledger.beancount", some ln, []⟩ 20240101 "*" (some "Store")
    "Coffee" [] [] [⟨"Assets:Cash", some ("-3.50", "USD")⟩,
                    ⟨"Expenses:Coffee", some ("3.50", "USD")⟩]

/-- C1: the claim states that generate_entry_id is a pure function of the
semantic content of a directive and does not change when unrelated edits
shift its line number.  The code violates this: generate_entry_id calls
hash_entry with exclude_meta=False, so the digest covers the meta fields
filename and lineno.  Two directives with identical semantic content
(equal content serialisation, equal meta excluding hash) whose line
numbers differ receive different identities. -/
theorem c1_identity_depends_on_lineno :
    serialize_content (sample_txn 5) = serialize_content (sample_txn 12) ∧
    hash_entry (sample_txn 5) true = hash_entry (sample_txn 12) true ∧
    generate_entry_id (sample_txn 5) ≠ generate_entry_id (sample_txn 12) := by
  refine ⟨rfl, rfl, ?_⟩
  decide

/-- A line continues the entry that starts above it when it is non blank
after stripping whitespace and starts with a space or a tab.  This is the
loop condition shared by update_transaction_in_file (lines 863 to 867)
and delete_entry_from_file (lines 1074 to 1078): the scan breaks on the
first blank line or non indented line. -/
def is_continuation (s : String) : Bool :=
  !(s.trim == "") && (s.startsWith " " || s.startsWith "\t")

/-- The while loop of the region scan: starting from line index e
(0-based), keep extending while the next line exists and is a
continuation line.  The fuel argument k only bounds the recursion; with
k at least the line count it never runs out before the loop condition
fails, because e grows by one each step and the loop stops once e + 1
reaches the number of lines. -/
def scan_cont (lines : List String) : Nat → Nat → Nat
  | 0, e => e
  | k + 1, e =>
    match lines[e + 1]? with
    | none => e
    | some next => if is_continuation next then scan_cont lines k (e + 1) else e

/-- find the 0-based index of the last line of the entry that starts at
0-based line startL: the while loop of update_transaction_in_file and
delete_entry_from_file. -/
def find_entry_end (lines : List String) (startL : Nat) : Nat :=
  scan_cont lines lines.length startL

/-- The region scan never moves the end before its start. -/
theorem scan_cont_le (lines : List String) : ∀ k e, e ≤ scan_cont lines k e := by
  intro k
  induction k with
  | zero => intro e; simp [scan_cont]
  | succ k ih =>
    intro e
    cases h : lines[e + 1]? with
    | none => simp [scan_cont, h]
    | some next =>
      cases hc : is_continuation next with
      | false => simp [scan_cont, h, hc]
      | true =>
        simp only [scan_cont, h, hc, if_true]
        exact Nat.le_trans (Nat.le_succ e) (ih (e + 1))

/-- Every line strictly between the start and the scanned end is a
continuation line. -/
theorem scan_cont_mid (lines : List String) :
    ∀ k e i, e < i → i ≤ scan_cont lines k e →
      ∃ s, lines[i]? = some s ∧ is_continuation s = true := by
  intro k
  induction k with
  | zero =>
    intro e i hlt hle
    simp only [scan_cont] at hle
    omega
  | succ k ih =>
    intro e i hlt hle
    cases h : lines[e + 1]? with
    | none =>
      simp only [scan_cont, h] at hle
      omega
    | some next =>
      cases hc : is_continuation next with
      | false =>
        simp [scan_cont, h, hc] at hle
        omega
      | true =>
        simp only [scan_cont, h, hc, if_true] at hle
        rcases Nat.lt_or_ge (e + 1) i with h1 | h1
        · exact ih (e + 1) i h1 hle
        · have hieq : i = e + 1 := Nat.le_antisymm h1 (Nat.succ_le_of_lt hlt)
          exact ⟨next, hieq ▸ h, hc⟩

/-- With enough fuel the scan genuinely stops: the line just after the
scanned end, when it exists, is not a continuation line. -/
theorem scan_cont_stop (lines : List String) :
    ∀ k e, lines.length ≤ k + e + 1 →
      ∀ s, lines[scan_cont lines k e + 1]? = some s → is_continuation s = false := by
  intro k
  induction k with
  | zero =>
    intro e hk s hs
    simp only [scan_cont] at hs
    have : e + 1 < lines.length := by simpa using (List.getElem?_eq_some_iff.mp hs).1
    omega
  | succ k ih =>
    intro e hk s hs
    cases h : lines[e + 1]? with
    | none =>
      simp [scan_cont, h] at hs
    | some next =>
      cases hc : is_continuation next with
      | false =>
        simp [scan_cont, h, hc] at hs
        subst hs
        exact hc
      | true =>
        simp only [scan_cont, h, hc, if_true] at hs
        exact ih (e + 1) (by omega) s hs

/-- C3: for a directive whose 1-based source line is L, the located
region used by update_transaction_in_file and delete_entry_from_file is
exactly the half open scan result: it starts at the header line L
(0-based index L - 1), every line after the header up to the scanned end
is an indented non blank continuation line, and the first line after the
region, when present, is blank or not indented, so the region covers the
header plus all continuation lines, no more and no less. -/
theorem c3_region_exact (lines : List String) (L : Nat) :
    L - 1 ≤ find_entry_end lines (L - 1) ∧
    (∀ i, L - 1 < i → i ≤ find_entry_end lines (L - 1) →
      ∃ s, lines[i]? = some s ∧ is_continuation s = true) ∧
    (∀ s, lines[find_entry_end lines (L - 1) + 1]? = some s →
      is_continuation s = false) := by
  refine ⟨scan_cont_le lines lines.length (L - 1), ?_, ?_⟩
  · intro i h1 h2
    exact scan_cont_mid lines lines.length (L - 1) i h1 h2
  · intro s hs
    exact scan_cont_stop lines lines.length (L - 1) (by omega) s hs

/-- Python truthiness of an optional string: None and the empty string
are falsy, every other string is truthy. -/
def truthy_str : Option String → Bool
  | none => false
  | some s => !(s == "")

/-- Helper for substring containment: does the needle occur as a prefix
of some suffix of the haystack. -/
def str_contains_aux (needle : List Char) : List Char → Bool
  | [] => needle.isEmpty
  | c :: t => needle.isPrefixOf (c :: t) || str_contains_aux needle t

/-- The Python expression needle in hay on strings: substring
containment, true for the empty needle. -/
def str_contains (hay needle : String) : Bool :=
  str_contains_aux needle.toList hay.toList

/-- Decimal value of a digit character. -/
def digit_val (c : Char) : Nat :=
  c.toNat - 48

/-- The leap year rule of the proleptic Gregorian calendar, as the
datetime constructor applies it. -/
def is_leap_year (y : Nat) : Bool :=
  (y % 4 == 0 && !(y % 100 == 0)) || y % 400 == 0

/-- Days in a month, as the datetime constructor validates them. -/
def days_in_month (y m : Nat) : Nat :=
  if m == 2 then (if is_leap_year y then 29 else 28)
  else if m == 4 || m == 6 || m == 9 || m == 11 then 30
  else 31

/-- Parse a month or day field of strptime: one or two digits, two
preferred, exactly as the backtracking of the strptime field regexes
resolves against the following separator or end of string; returns the
value and the remaining characters. -/
def parse_two_digit_field : List Char → Option (Nat × List Char)
  | c1 :: c2 :: rest =>
    if c1.isDigit && c2.isDigit then some (digit_val c1 * 10 + digit_val c2, rest)
    else if c1.isDigit then some (digit_val c1, c2 :: rest)
    else none
  | [c1] => if c1.isDigit then some (digit_val c1, []) else none
  | [] => none

/-- Modelled from the spec: datetime.strptime(s, %Y-%m-%d).date() from
the Python standard library, called by the date filters of get_entries;
the library is not part of this repository.  Its field regexes take
exactly four digits for the year and one or two digits for month and
day, the whole string must be consumed, and the datetime constructor
then validates the year (at least MINYEAR = 1) and the day against the
month and the leap year rule; any failure raises ValueError, modelled
as none.  The result is encoded as y * 10000 + m * 100 + d, which
preserves chronological order. -/
def parse_date (s : String) : Option Nat :=
  match s.toList with
  | y1 :: y2 :: y3 :: y4 :: '-' :: rest =>
    if y1.isDigit && y2.isDigit && y3.isDigit && y4.isDigit then
      let y := ((digit_val y1 * 10 + digit_val y2) * 10 + digit_val y3) * 10 +
        digit_val y4
      match parse_two_digit_field rest with
      | some (m, '-' :: rest2) =>
        match parse_two_digit_field rest2 with
        | some (d, []) =>
          if 1 ≤ y ∧ 1 ≤ m ∧ m ≤ 12 ∧ 1 ≤ d ∧ d ≤ 31 ∧ d ≤ days_in_month y m then
            some (y * 10000 + m * 100 + d)
          else none
        | _ => none
      | _ => none
    else none
  | _ => none

/-- entry_matches_account: transactions match when any posting account
contains the filter (case insensitive); notes, balances and pads match
on their single account; every other kind never matches. -/
def entry_matches_account (e : Entry) (accountFilter : String) : Bool :=
  let accountLower := accountFilter.toLower
  match e with
  | .transaction _ _ _ _ _ _ _ postings =>
    postings.any fun p => str_contains p.account.toLower accountLower
  | .note _ _ account _ => str_contains account.toLower accountLower
  | .balance _ _ account _ _ => str_contains account.toLower accountLower
  | .pad _ _ account _ => str_contains account.toLower accountLower
  | _ => false

/-- entry_matches_search: case insensitive substring match against payee,
narration or any posting account for transactions, account or comment
for notes, account for balances and pads; other kinds never match. -/
def entry_matches_search (e : Entry) (searchTerm : String) : Bool :=
  let searchLower := searchTerm.toLower
  match e with
  | .transaction _ _ _ payee narr _ _ postings =>
    (truthy_str payee && str_contains (payee.getD "").toLower searchLower) ||
    (!(narr == "") && str_contains narr.toLower searchLower) ||
    postings.any fun p => str_contains p.account.toLower searchLower
  | .note _ _ account comment =>
    str_contains account.toLower searchLower || str_contains comment.toLower searchLower
  | .balance _ _ account _ _ => str_contains account.toLower searchLower
  | .pad _ _ account _ => str_contains account.toLower searchLower
  | _ => false

/-- The safely converted metadata of entry_to_dict: every meta entry that
is serialisable, which here covers the filename, the lineno (rendered as
text in the model) and the user pairs. -/
def safe_metadata (m : Meta) : List (String × String) :=
  (match m.filename with
    | some f => [("filename", f)]
    | none => []) ++
  (match m.lineno with
    | some n => [("lineno", Nat.repr n)]
    | none => []) ++
  m.userMeta

/-- One posting dictionary of transaction_to_dict_data, at the
granularity the Entry model carries. -/
structure PostingDict where
  account : String
  amount : Option String
  currency : Option String
deriving DecidableEq, Repr

/-- The kind specific part of the dictionary built by entry_to_dict. -/
inductive KindData where
  | txn (flag : String) (payee : Option String) (narration : String)
      (tags : List String) (links : List String) (postings : List PostingDict)
  | note (account : String) (comment : String)
  | balance (account : String) (amount : String) (currency : String)
  | pad (account : String) (sourceAccount : String)
  | base
deriving DecidableEq, Repr

/-- The dictionary produced by entry_to_dict: id, type, date, metadata
plus the kind specific fields. -/
structure EntryDict where
  id : String
  type : String
  date : Nat
  metadata : List (String × String)
  kind : KindData
deriving DecidableEq, Repr

/-- entry_to_dict: the conversion of a directive to its query output
dictionary. -/
def entry_to_dict (e : Entry) : EntryDict :=
  { id := generate_entry_id e
    type := get_entry_type e
    date := e.date
    metadata := safe_metadata e.meta
    kind :=
      match e with
      | .transaction _ _ flag payee narr tags links ps =>
        .txn flag payee narr tags links
          (ps.map fun p =>
            { account := p.account
              amount := p.units.map (·.1)
              currency := p.units.map (·.2) })
      | .note _ _ a c => .note a c
      | .balance _ _ a n c => .balance a n c
      | .pad _ _ a s => .pad a s
      | _ => .base }

/-- The filter arguments of get_entries.  The pagination arguments are
kept separate. -/
structure Filters where
  startDate : Option String
  endDate : Option String
  accountFilter : Option String
  payeeFilter : Option String
  tagFilter : Option String
  searchTerm : Option String
  entryTypes : Option (List String)
deriving Repr

/-- The default applied at the top of get_entries: when entry_types is
falsy (None or the empty list) the allow list defaults to transaction,
balance, pad and note. -/
def resolve_entry_types : Option (List String) → List String
  | none => ["transaction", "balance", "pad", "note"]
  | some ts => if ts.isEmpty then ["transaction", "balance", "pad", "note"] else ts

/-- The account filter step: applied only when the filter string is
truthy. -/
def passes_account (f : Filters) (e : Entry) : Bool :=
  !truthy_str f.accountFilter || entry_matches_account e (f.accountFilter.getD "")

/-- The payee filter step: only transactions are eligible once a payee
filter is supplied; a transaction passes when its payee is truthy and
contains the filter case insensitively. -/
def passes_payee (f : Filters) (e : Entry) : Bool :=
  if truthy_str f.payeeFilter then
    match e with
    | .transaction _ _ _ payee _ _ _ _ =>
      truthy_str payee &&
        str_contains (payee.getD "").toLower (f.payeeFilter.getD "").toLower
    | _ => false
  else true

/-- The tag filter step: only transactions are eligible; the lowered
filter must equal one of the lowered tags. -/
def passes_tag (f : Filters) (e : Entry) : Bool :=
  if truthy_str f.tagFilter then
    match e with
    | .transaction _ _ _ _ _ tags _ _ =>
      !tags.isEmpty && (tags.map String.toLower).contains (f.tagFilter.getD "").toLower
    | _ => false
  else true

/-- The search term step: applied only when the term is truthy. -/
def passes_search (f : Filters) (e : Entry) : Bool :=
  !truthy_str f.searchTerm || entry_matches_search e (f.searchTerm.getD "")

/-- The tail of the per entry loop after the date filters: the account,
payee, tag and search filters, then entry_to_dict.  A result of none
means the entry is skipped by a continue. -/
def process_entry_rest (f : Filters) (e : Entry) : Option EntryDict :=
  if passes_account f e && passes_payee f e && passes_tag f e && passes_search f e then
    some (entry_to_dict e)
  else none

/-- The end date filter of the per entry loop: applied only when the
end date string is truthy (the source guards it with if end_date:, so
None and the empty string apply no filter); strptime on the string (its
ValueError is caught by the per entry handler, modelled as none) and the
inclusive upper bound comparison. -/
def process_entry_after_start (f : Filters) (e : Entry) : Option EntryDict :=
  if truthy_str f.endDate then
    match parse_date (f.endDate.getD "") with
    | none => none
    | some ed => if ed < e.date then none else process_entry_rest f e
  else process_entry_rest f e

/-- The body of the per entry loop of get_entries: the type allow list
check, the start date filter applied only when the start date string is
truthy (the source guards it with if start_date:, so None and the empty
string apply no filter; a caught strptime failure is modelled as none,
skipping the entry), then the remaining filters.  A result of none means
the loop continued without collecting the entry. -/
def process_entry (f : Filters) (ets : List String) (e : Entry) : Option EntryDict :=
  if !ets.contains (get_entry_type e) then none
  else if truthy_str f.startDate then
    match parse_date (f.startDate.getD "") with
    | none => none
    | some sd => if e.date < sd then none else process_entry_after_start f e
  else process_entry_after_start f e

/-- Stable insertion into a list: x is placed before the first element y
with le x y, so elements equivalent under le keep their original
relative order. -/
def insertBy (le : α → α → Bool) (x : α) : List α → List α
  | [] => [x]
  | y :: ys => if le x y then x :: y :: ys else y :: insertBy le x ys

/-- Stable insertion sort; extensionally equal to the stable Python
list.sort for a total comparison. -/
def sortBy (le : α → α → Bool) : List α → List α
  | [] => []
  | x :: xs => insertBy le x (sortBy le xs)

/-- The comparison of the sort in get_entries: by date descending
(list.sort with key date and reverse=True). -/
def date_desc (a b : EntryDict) : Bool :=
  decide (b.date ≤ a.date)

/-- The result dictionary of get_entries. -/
structure QueryResult where
  entries : List EntryDict
  totalCount : Nat
  returnedCount : Nat
  offset : Nat
  limit : Nat
  hasMore : Bool
deriving DecidableEq, Repr

/-- The filtered list built by the per entry loop of get_entries, in
snapshot order. -/
def processed_entries (allEntries : List Entry) (f : Filters) : List EntryDict :=
  allEntries.filterMap (process_entry f (resolve_entry_types f.entryTypes))

/-- get_entries: filter each entry, sort the survivors by date
descending with a stable sort, then paginate with the slice
entries[offset : offset + limit]. -/
def get_entries (allEntries : List Entry) (f : Filters) (limit offset : Nat) : QueryResult :=
  let entries := processed_entries allEntries f
  let sorted := sortBy date_desc entries
  let totalCount := sorted.length
  let page := (sorted.drop offset).take limit
  { entries := page
    totalCount := totalCount
    returnedCount := page.length
    offset := offset
    limit := limit
    hasMore := decide (offset + page.length < totalCount) }

/-- Inserting one element grows the length by one. -/
theorem length_insertBy (le : α → α → Bool) (x : α) (l : List α) :
    (insertBy le x l).length = l.length + 1 := by
  induction l with
  | nil => rfl
  | cons y ys ih => by_cases h : le x y <;> simp [insertBy, h, ih]

/-- The stable sort preserves length. -/
theorem length_sortBy (le : α → α → Bool) (l : List α) :
    (sortBy le l).length = l.length := by
  induction l with
  | nil => rfl
  | cons x xs ih => simp [sortBy, length_insertBy, ih]

/-- C4: with N the number of entries that survive filtering,
get_entries reports total_count = N, returns the page obtained by
applying the offset/limit slice after filtering and sorting, reports
returned_count = min(limit, N - offset) (truncated subtraction renders
max(0, N - offset)), and has_more = (offset + returned_count < N). -/
theorem c4_pagination (allEntries : List Entry) (f : Filters) (limit offset : Nat) :
    (get_entries allEntries f limit offset).totalCount =
      (processed_entries allEntries f).length ∧
    (get_entries allEntries f limit offset).entries =
      ((sortBy date_desc (processed_entries allEntries f)).drop offset).take limit ∧
    (get_entries allEntries f limit offset).returnedCount =
      min limit ((processed_entries allEntries f).length - offset) ∧
    (get_entries allEntries f limit offset).hasMore =
      decide (offset + (get_entries allEntries f limit offset).returnedCount <
        (processed_entries allEntries f).length) := by
  simp [get_entries, length_sortBy, List.length_take, List.length_drop]

/-- C10: an empty entry_types list is falsy in Python, so it is treated
exactly like an unspecified one: both resolve to the default allow list
and the whole query result coincides. -/
theorem c10_empty_entry_types (allEntries : List Entry)
    (sd ed af pf tf term : Option String) (limit offset : Nat) :
    get_entries allEntries ⟨sd, ed, af, pf, tf, term, some []⟩ limit offset =
      get_entries allEntries ⟨sd, ed, af, pf, tf, term, none⟩ limit offset := rfl

/-- Unfolding of insertBy when the head is the insertion point. -/
theorem insertBy_cons_pos (le : α → α → Bool) (x y : α) (ys : List α)
    (h : le x y = true) : insertBy le x (y :: ys) = x :: y :: ys := by
  simp [insertBy, h]

/-- Unfolding of insertBy when the head is kept in front. -/
theorem insertBy_cons_neg (le : α → α → Bool) (x y : α) (ys : List α)
    (h : le x y = false) : insertBy le x (y :: ys) = y :: insertBy le x ys := by
  simp [insertBy, h]

/-- Membership in a stable insertion. -/
theorem mem_insertBy (le : α → α → Bool) (x a : α) (l : List α) :
    a ∈ insertBy le x l ↔ a = x ∨ a ∈ l := by
  induction l with
  | nil => simp [insertBy]
  | cons y ys ih =>
    cases h : le x y with
    | true => simp [insertBy_cons_pos le x y ys h]
    | false =>
      simp only [insertBy_cons_neg le x y ys h, List.mem_cons, ih]
      tauto

/-- Inserting into a list sorted by date descending keeps it sorted. -/
theorem sorted_insertBy_date (x : EntryDict) (l : List EntryDict)
    (hl : l.Pairwise (fun a b => b.date ≤ a.date)) :
    (insertBy date_desc x l).Pairwise (fun a b => b.date ≤ a.date) := by
  induction l with
  | nil => simp [insertBy]
  | cons y ys ih =>
    rcases List.pairwise_cons.mp hl with ⟨hy, hys⟩
    cases h : date_desc x y with
    | true =>
      have hxy : y.date ≤ x.date := by simpa [date_desc] using h
      rw [insertBy_cons_pos date_desc x y ys h]
      refine List.pairwise_cons.mpr ⟨?_, List.pairwise_cons.mpr ⟨hy, hys⟩⟩
      intro z hz
      rcases List.mem_cons.mp hz with rfl | hz
      · exact hxy
      · exact Nat.le_trans (hy z hz) hxy
    | false =>
      have hxy : x.date < y.date := by
        have h2 : ¬y.date ≤ x.date := by simpa [date_desc] using h
        omega
      rw [insertBy_cons_neg date_desc x y ys h]
      refine List.pairwise_cons.mpr ⟨?_, ih hys⟩
      intro z hz
      rcases (mem_insertBy date_desc x z ys).mp hz with rfl | hz
      · exact Nat.le_of_lt hxy
      · exact hy z hz

/-- The sort of get_entries yields a list that is sorted by date
descending. -/
theorem sorted_sortBy_date (l : List EntryDict) :
    (sortBy date_desc l).Pairwise (fun a b => b.date ≤ a.date) := by
  induction l with
  | nil => simp [sortBy]
  | cons x xs ih => exact sorted_insertBy_date x (sortBy date_desc xs) ih

/-- Filtering a fixed date out of a stable insertion: the inserted
element lands in front of the equal date block, exactly because the
insertion point is the first element with a date less than or equal to
the inserted one. -/
theorem filter_insertBy_date (x : EntryDict) (l : List EntryDict) (d : Nat) :
    (insertBy date_desc x l).filter (fun z => z.date == d) =
      if x.date == d then x :: l.filter (fun z => z.date == d)
      else l.filter (fun z => z.date == d) := by
  induction l with
  | nil => by_cases hx : x.date == d <;> simp [insertBy, List.filter_cons, hx]
  | cons y ys ih =>
    cases h : date_desc x y with
    | true =>
      rw [insertBy_cons_pos date_desc x y ys h]
      by_cases hx : x.date == d <;> simp [List.filter_cons, hx]
    | false =>
      have hxy : x.date < y.date := by
        have h2 : ¬y.date ≤ x.date := by simpa [date_desc] using h
        omega
      rw [insertBy_cons_neg date_desc x y ys h]
      by_cases hx : x.date == d
      · have hxd : x.date = d := by simpa using hx
        have hy : (y.date == d) = false := by
          simp only [beq_eq_false_iff_ne, ne_eq]
          omega
        simp [List.filter_cons, hy, ih, hx]
      · by_cases hy : y.date == d <;> simp [List.filter_cons, hy, ih, hx]

/-- Stability of the sort of get_entries: for every date d, the entries
carrying date d appear in the sorted list in exactly their original
order. -/
theorem filter_sortBy_date (l : List EntryDict) (d : Nat) :
    (sortBy date_desc l).filter (fun z => z.date == d) =
      l.filter (fun z => z.date == d) := by
  induction l with
  | nil => rfl
  | cons x xs ih =>
    simp only [sortBy, filter_insertBy_date, ih]
    by_cases hx : x.date == d <;> simp [List.filter_cons, hx]

/-- C7: the page returned by get_entries is sorted by date descending;
the sorted list keeps, date by date, exactly the snapshot order of the
filtered entries (stability), and hence the equal date entries of the
returned page appear as a subsequence of that original order, so the
ordering is deterministic. -/
theorem c7_sorted_stable (allEntries : List Entry) (f : Filters) (limit offset : Nat) :
    ((get_entries allEntries f limit offset).entries).Pairwise
      (fun a b => b.date ≤ a.date) ∧
    (∀ d, (sortBy date_desc (processed_entries allEntries f)).filter
        (fun z => z.date == d) =
      (processed_entries allEntries f).filter (fun z => z.date == d)) ∧
    (∀ d, ((get_entries allEntries f limit offset).entries.filter
        (fun z => z.date == d)).Sublist
      ((processed_entries allEntries f).filter (fun z => z.date == d))) := by
  have hpage : (get_entries allEntries f limit offset).entries =
      ((sortBy date_desc (processed_entries allEntries f)).drop offset).take limit := rfl
  have hsub : (get_entries allEntries f limit offset).entries.Sublist
      (sortBy date_desc (processed_entries allEntries f)) := by
    rw [hpage]
    exact (List.take_sublist _ _).trans (List.drop_sublist _ _)
  refine ⟨List.Pairwise.sublist hsub (sorted_sortBy_date _),
    fun d => filter_sortBy_date _ d, fun d => ?_⟩
  have hfil := hsub.filter (fun z => z.date == d)
  rwa [filter_sortBy_date] at hfil

/-- A truthy start or end date string that strptime rejects makes the
per entry handler skip every entry: either the entry fails the type
allow list check, or it reaches the strptime call, which raises, and the
except clause continues.  A falsy (empty) date string never reaches
strptime, so it is excluded. -/
theorem process_entry_none_of_bad_date (f : Filters) (ets : List String) (e : Entry)
    (h : (∃ s, f.startDate = some s ∧ s ≠ "" ∧ parse_date s = none) ∨
         (∃ s, f.endDate = some s ∧ s ≠ "" ∧ parse_date s = none)) :
    process_entry f ets e = none := by
  rcases h with ⟨s, hs, hne, hp⟩ | ⟨s, hs, hne, hp⟩
  · have htr : truthy_str (some s) = true := by simp [truthy_str, hne]
    simp [process_entry, htr, hs, hp]
  · have hafter : process_entry_after_start f e = none := by
      have htr : truthy_str (some s) = true := by simp [truthy_str, hne]
      simp [process_entry_after_start, htr, hs, hp]
    unfold process_entry
    by_cases htr2 : truthy_str f.startDate = true
    · cases hp2 : parse_date (f.startDate.getD "") with
      | none => simp [htr2, hp2]
      | some sd => simp [htr2, hp2, hafter]
    · simp [htr2, hafter]

/-- C9 amended: a query whose start date or end date is a non empty
string that strptime rejects for the YYYY-MM-DD format neither raises
nor returns an error: the per entry handler catches the strptime failure
for every entry, so the result is an empty page with total_count = 0,
returned_count = 0 and no further pages.  (The empty string is excluded:
it is falsy, so the source applies no date filter at all, and strings
such as 2024-1-5 are accepted by strptime, so neither input empties the
query.) -/
theorem c9_malformed_date_empty (allEntries : List Entry) (f : Filters)
    (limit offset : Nat)
    (h : (∃ s, f.startDate = some s ∧ s ≠ "" ∧ parse_date s = none) ∨
         (∃ s, f.endDate = some s ∧ s ≠ "" ∧ parse_date s = none)) :
    (get_entries allEntries f limit offset).entries = [] ∧
    (get_entries allEntries f limit offset).totalCount = 0 ∧
    (get_entries allEntries f limit offset).returnedCount = 0 ∧
    (get_entries allEntries f limit offset).hasMore = false := by
  have hproc : processed_entries allEntries f = [] := by
    simp only [processed_entries, List.filterMap_eq_nil_iff]
    intro e _
    exact process_entry_none_of_bad_date f _ e h
  simp [get_entries, hproc, sortBy]

/-- C9 counterexample: the original claim covers every start or end date
string that is not in YYYY-MM-DD format, and the empty string is not in
that format; yet a query with start_date equal to the empty string skips
the date filter entirely (the if start_date: guard is falsy) and returns
the full snapshot, not an empty list with total_count = 0. -/
theorem c9_counterexample :
    (get_entries [sample_txn 3] ⟨some "", none, none, none, none, none, none⟩
      100 0).totalCount = 1 ∧
    (get_entries [sample_txn 3] ⟨some "", none, none, none, none, none, none⟩
      100 0).entries ≠ [] := by
  constructor
  · rfl
  · decide

/-- Concrete run of the malformed date property: with the date filter
01/02/2024, a non empty string strptime rejects, a query over a one
element snapshot returns the empty result. -/
theorem c9_malformed_date_empty_witness :
    ((∃ s, (some "01/02/2024" : Option String) = some s ∧ s ≠ "" ∧
        parse_date s = none) ∨
      (∃ s, (none : Option String) = some s ∧ s ≠ "" ∧ parse_date s = none)) ∧
    ((get_entries [sample_txn 3]
        ⟨some "01/02/2024", none, none, none, none, none, none⟩ 100 0).entries = [] ∧
     (get_entries [sample_txn 3]
        ⟨some "01/02/2024", none, none, none, none, none, none⟩ 100 0).totalCount = 0 ∧
     (get_entries [sample_txn 3]
        ⟨some "01/02/2024", none, none, none, none, none, none⟩ 100 0).returnedCount = 0 ∧
     (get_entries [sample_txn 3]
        ⟨some "01/02/2024", none, none, none, none, none, none⟩ 100 0).hasMore = false) :=
  ⟨Or.inl ⟨"01/02/2024", rfl, by decide, by decide⟩,
   c9_malformed_date_empty [sample_txn 3]
     ⟨some "01/02/2024", none, none, none, none, none, none⟩ 100 0
     (Or.inl ⟨"01/02/2024", rfl, by decide, by decide⟩)⟩

/-- The cost dictionary of a posting payload handed to
generate_transaction_text. -/
structure CostData where
  number : Option String
  currency : Option String
  date : Option String
  label : Option String
  isTotal : Bool
deriving Repr

/-- The price dictionary of a posting payload. -/
structure PriceData where
  amount : Option String
  currency : Option String
  isTotal : Bool
deriving Repr

/-- One posting dictionary of the update or create payload. -/
structure PostingData where
  account : String
  amount : Option String
  currency : Option String
  cost : Option CostData
  price : Option PriceData
  flag : Option String
  comment : Option String
  metadata : List (String × String)
deriving Repr

/-- The transaction payload (updated_data) handed to
generate_transaction_text.  Absent dictionary keys are none; the Python
defaults (flag *, empty payee and narration, empty lists) are applied
inside the renderer exactly as the .get calls do. -/
structure TxnData where
  date : String
  flag : Option String
  payee : Option String
  narration : Option String
  tags : List String
  links : List String
  metadata : List (String × String)
  postings : List PostingData
deriving Repr

/-- The cost clause of a posting line: braces (doubled for a total
cost), number and currency, optional date and label, or the lot match
forms with only a date or only a label. -/
def render_cost (c : CostData) : String :=
  if truthy_str c.number && truthy_str c.currency then
    let ob := if c.isTotal then "\x7b\x7b" else "\x7b"
    let cb := if c.isTotal then "\x7d\x7d" else "\x7d"
    " " ++ ob ++ c.number.getD "" ++ " " ++ c.currency.getD "" ++
      (if truthy_str c.date then ", " ++ c.date.getD "" else "") ++
      (if truthy_str c.label then ", \"" ++ c.label.getD "" ++ "\"" else "") ++ cb
  else if truthy_str c.date then " \x7b" ++ c.date.getD "" ++ "\x7d"
  else if truthy_str c.label then " \x7b\"" ++ c.label.getD "" ++ "\"\x7d"
  else ""

/-- The price clause of a posting line: @ for a per unit price, @@ for a
total price. -/
def render_price (p : PriceData) : String :=
  if truthy_str p.amount && truthy_str p.currency then
    " " ++ (if p.isTotal then "@@" else "@") ++ " " ++ p.amount.getD "" ++ " " ++
      p.currency.getD ""
  else ""

/-- The lines of one posting: the posting line itself (flag, account,
amount and currency with cost and price clauses, optional comment) plus
one four space indented line per posting metadata pair. -/
def render_posting (p : PostingData) : List String :=
  let line0 := "  " ++
    (match p.flag with
      | some fl => if fl == "" then "" else fl ++ " "
      | none => "") ++ p.account
  let line1 :=
    if truthy_str p.amount && truthy_str p.currency then
      line0 ++ "  " ++ p.amount.getD "" ++ " " ++ p.currency.getD "" ++
        (match p.cost with
          | some c => render_cost c
          | none => "") ++
        (match p.price with
          | some pr => render_price pr
          | none => "")
    else line0
  let line2 :=
    if truthy_str p.comment then line1 ++ "  ; " ++ p.comment.getD "" else line1
  line2 :: p.metadata.map fun kv => "    " ++ kv.1 ++ ": \"" ++ kv.2 ++ "\""

/-- The tag tokens of the header line: strip every leading hash from the
tag, drop it when nothing remains, and re-add exactly one hash. -/
def render_tag_tokens (tags : List String) : List String :=
  tags.filterMap fun tag =>
    let clean := String.mk (tag.toList.dropWhile fun c => c == '#')
    if clean == "" then none else some ("#" ++ clean)

/-- generate_transaction_text: render the transaction payload into
canonical ledger text, one header line (date, flag, quoted payee and
narration with the omission rules, tag and link tokens), the transaction
metadata lines, then the posting lines. -/
def generate_transaction_text (t : TxnData) : String :=
  let flag := t.flag.getD "*"
  let payee := t.payee.getD ""
  let narration := t.narration.getD ""
  let payeeNarration :=
    if payee != "" && narration != "" then
      "\"" ++ payee ++ "\" \"" ++ narration ++ "\""
    else if payee != "" then "\"" ++ payee ++ "\" \"\""
    else if narration != "" then "\"" ++ narration ++ "\""
    else "\"\""
  let headerParts := [t.date, flag, payeeNarration] ++ render_tag_tokens t.tags ++
    t.links.map fun l => "^" ++ l
  let lines := [String.intercalate " " headerParts] ++
    t.metadata.map (fun kv => "  " ++ kv.1 ++ ": \"" ++ kv.2 ++ "\"") ++
    t.postings.flatMap render_posting
  String.intercalate "\n" lines

/-- Helper of split_lines: walk the character list, accumulating the
current line in reverse. -/
def split_lines_go (acc : List Char) : List Char → List String
  | [] => [String.mk acc.reverse]
  | c :: rest =>
    if c == '\n' then String.mk acc.reverse :: split_lines_go [] rest
    else split_lines_go (c :: acc) rest

/-- content.split on the newline character, as every read path of the
backend performs it.  Defined structurally over the character list so
that concrete runs evaluate; extensionally this is the split of the
Python str.split and of String.splitOn with separator newline. -/
def split_lines (s : String) : List String :=
  split_lines_go [] s.toList

/-- Read a file: the first binding of the path in the association list. -/
def fs_read (fs : List (String × String)) (path : String) : Option String :=
  (fs.find? fun kv => kv.1 == path).map (·.2)

/-- Write a file whole: prepend the new binding; since reads take the
first match this is an overwrite of the mutable map. -/
def fs_write (fs : List (String × String)) (path content : String) :
    List (String × String) :=
  (path, content) :: fs

/-- The mutable state the mutation paths touch: the files on disk and
the record of the backups taken (original path paired with the snapshot
of its content at backup time). -/
structure SysState where
  files : List (String × String)
  backups : List (String × String)
deriving Repr

/-- The configuration of the API object: the primary ledger path, the
backup switch, and the current date used by date.today(). -/
structure Config where
  mainFile : String
  createBackups : Bool
  today : Nat
deriving Repr

/-- create_backup_if_enabled as it acts on the ledger state: when
backups are enabled it copies the target file (shutil.copy2 raises when
the file is missing, modelled as the error branch, which the enclosing
try of each caller turns into a failure result).  The bounded retention
cleanup only deletes backup files and never touches a ledger file; its
arithmetic is modelled separately below for the retention claim. -/
def create_backup_step (createBackups : Bool) (st : SysState) (target : String) :
    Except String (Option String × SysState) :=
  if createBackups then
    match fs_read st.files target with
    | none => .error "backup copy failed"
    | some content =>
      .ok (some (target ++ ".backup"),
           { st with backups := st.backups ++ [(target, content)] })
  else .ok (none, st)

/-- The result dictionary every mutation method returns. -/
structure MutResult where
  success : Bool
  error : Option String
  message : Option String
  backupFile : Option String
deriving Repr

/-- find_entry_by_id: scan the snapshot for the first supported
directive (transaction, note, balance, pad) whose generated id equals
the requested one. -/
def find_entry_by_id (entries : List Entry) (entryId : String) : Option Entry :=
  entries.find? fun e =>
    (match e with
      | .transaction .. => true
      | .note .. => true
      | .balance .. => true
      | .pad .. => true
      | _ => false) && generate_entry_id e == entryId

/-- find_transaction_by_id: find_entry_by_id restricted to
transactions. -/
def find_transaction_by_id (entries : List Entry) (tid : String) : Option Entry :=
  match find_entry_by_id entries tid with
  | some e =>
    match e with
    | .transaction .. => some e
    | _ => none
  | none => none

/-- update_transaction_in_file: resolve the transaction by id (the not
found case is reported before any backup, read or write), create the
backup, read the ledger; with a lineno present splice the rendered
replacement text over the located region and write the file back, and
with no lineno report a failure (this path has no create fallback). -/
def update_transaction_in_file (cfg : Config) (entries : List Entry) (st : SysState)
    (transactionId : String) (updatedData : TxnData) : MutResult × SysState :=
  match find_transaction_by_id entries transactionId with
  | none =>
    ({ success := false, error := some "Transaction not found",
       message := none, backupFile := none }, st)
  | some txn =>
    match create_backup_step cfg.createBackups st cfg.mainFile with
    | .error e =>
      ({ success := false, error := some ("Failed to update transaction: " ++ e),
         message := none, backupFile := none }, st)
    | .ok (backupPath, st1) =>
      match fs_read st1.files cfg.mainFile with
      | none =>
        ({ success := false,
           error := some "Failed to update transaction: read failed",
           message := none, backupFile := none }, st1)
      | some content =>
        match txn.meta.lineno with
        | some lineno =>
          let lines := split_lines content
          let newText := generate_transaction_text updatedData
          let startLine := lineno - 1
          let endLine := find_entry_end lines startLine
          let newLines :=
            lines.take startLine ++ split_lines newText ++ lines.drop (endLine + 1)
          let st2 := { st1 with
            files := fs_write st1.files cfg.mainFile (String.intercalate "\n" newLines) }
          ({ success := true, error := none,
             message := some "Transaction updated successfully",
             backupFile := backupPath }, st2)
        | none =>
          ({ success := false, error := some "Could not locate transaction in file",
             message := none, backupFile := none }, st1)

/-- delete_entry_from_file: resolve any supported entry by id (the not
found case is reported before any backup, read or write), create the
backup, read the ledger; with a lineno present delete the located region
lines and write the file back. -/
def delete_entry_from_file (cfg : Config) (entries : List Entry) (st : SysState)
    (entryId : String) : MutResult × SysState :=
  match find_entry_by_id entries entryId with
  | none =>
    ({ success := false, error := some "Entry not found",
       message := none, backupFile := none }, st)
  | some entry =>
    match create_backup_step cfg.createBackups st cfg.mainFile with
    | .error e =>
      ({ success := false, error := some ("Failed to delete entry: " ++ e),
         message := none, backupFile := none }, st)
    | .ok (backupPath, st1) =>
      match fs_read st1.files cfg.mainFile with
      | none =>
        ({ success := false, error := some "Failed to delete entry: read failed",
           message := none, backupFile := none }, st1)
      | some content =>
        match entry.meta.lineno with
        | some lineno =>
          let lines := split_lines content
          let startLine := lineno - 1
          let endLine := find_entry_end lines startLine
          let newLines := lines.take startLine ++ lines.drop (endLine + 1)
          let st2 := { st1 with
            files := fs_write st1.files cfg.mainFile (String.intercalate "\n" newLines) }
          ({ success := true, error := none,
             message := some "Entry deleted successfully",
             backupFile := backupPath }, st2)
        | none =>
          ({ success := false, error := some "Could not locate entry in file",
             message := none, backupFile := none }, st1)

/-- C5: when the identity lookup finds no directive, update and delete
both return a structured failure result and leave the whole state
untouched: the not found check precedes the backup and every read and
write, so no backup is created and the ledger content is unchanged. -/
theorem c5_notfound_no_mutation (cfg : Config) (entries : List Entry) (st : SysState)
    (entryId : String) (updatedData : TxnData)
    (h : find_entry_by_id entries entryId = none) :
    update_transaction_in_file cfg entries st entryId updatedData =
      ({ success := false, error := some "Transaction not found",
         message := none, backupFile := none }, st) ∧
    delete_entry_from_file cfg entries st entryId =
      ({ success := false, error := some "Entry not found",
         message := none, backupFile := none }, st) := by
  have hft : find_transaction_by_id entries entryId = none := by
    simp [find_transaction_by_id, h]
  exact ⟨by simp [update_transaction_in_file, hft],
         by simp [delete_entry_from_file, h]⟩

/-- An empty transaction payload, used to instantiate witnesses. -/
def empty_txn_data : TxnData :=
  ⟨"2024-01-01", none, none, none, [], [], [], []⟩

/-- Concrete run of the not found property: an empty snapshot never
resolves any id, and both operations fail without touching the state. -/
theorem c5_notfound_no_mutation_witness :
    find_entry_by_id [] "missing" = none ∧
    (update_transaction_in_file ⟨"main.beancount", true, 20240101⟩ [] ⟨[], []⟩
        "missing" empty_txn_data =
      ({ success := false, error := some "Transaction not found",
         message := none, backupFile := none }, ⟨[], []⟩) ∧
     delete_entry_from_file ⟨"main.beancount", true, 20240101⟩ [] ⟨[], []⟩
        "missing" =
      ({ success := false, error := some "Entry not found",
         message := none, backupFile := none }, ⟨[], []⟩)) :=
  ⟨rfl, c5_notfound_no_mutation ⟨"main.beancount", true, 20240101⟩ [] ⟨[], []⟩
    "missing" empty_txn_data rfl⟩

/-- find_first_directive_date: the earliest date across all entries
(dates are always truthy in Python, so the truthiness guard of the loop
never skips). -/
def find_first_directive_date (entries : List Entry) : Option Nat :=
  entries.foldl
    (fun first e =>
      match first with
      | none => some e.date
      | some f => if e.date < f then some e.date else some f) none

/-- The target file selection loop of create_commodity_declaration: scan
the snapshot; the first price directive for the symbol carrying a
filename ends the scan with that filename, while every transaction that
posts the symbol and carries a filename overwrites the running choice
and the scan goes on (only the price branch breaks the outer loop); a
falsy empty filename keeps the previous choice. -/
def choose_target_file (acc : String) (entries : List Entry) (symbol : String) : String :=
  match entries with
  | [] => acc
  | e :: rest =>
    match e with
    | .price m _ cur =>
      if cur == symbol && m.filename.isSome then
        match m.filename with
        | some f => if f == "" then acc else f
        | none => acc
      else choose_target_file acc rest symbol
    | .transaction m _ _ _ _ _ _ postings =>
      if (postings.any fun p =>
            match p.units with
            | some nc => nc.2 == symbol
            | none => false) && m.filename.isSome then
        choose_target_file
          (match m.filename with
            | some f => if f == "" then acc else f
            | none => acc) rest symbol
      else choose_target_file acc rest symbol
    | _ => choose_target_file acc rest symbol

/-- The metadata body lines of a commodity declaration: two space
indented key: value pairs; metadata values are modelled as strings, so
they are always quoted. -/
def commodity_meta_lines (metadata : List (String × String)) : List String :=
  metadata.map fun kv => "  " ++ kv.1 ++ ": \"" ++ kv.2 ++ "\""

/-- create_commodity_declaration: build the declaration text (header
dated at the explicit date, else the earliest directive date, else
today), choose the target file, back it up and append a blank line plus
the text (append mode creates a missing file).  An exception from the
backup copy is caught by the method and returned as a failure result. -/
def create_commodity_declaration (cfg : Config) (entries : List Entry) (st : SysState)
    (symbol : String) (metadata : List (String × String)) (dateForDecl : Option Nat) :
    MutResult × SysState :=
  let d := dateForDecl.getD ((find_first_directive_date entries).getD cfg.today)
  let declLines := (Nat.repr d ++ " commodity " ++ symbol) :: commodity_meta_lines metadata
  let text := String.intercalate "\n" declLines ++ "\n"
  let target := choose_target_file cfg.mainFile entries symbol
  match create_backup_step cfg.createBackups st target with
  | .error e =>
    ({ success := false, error := some e, message := none, backupFile := none }, st)
  | .ok (backupPath, st1) =>
    let oldContent := (fs_read st1.files target).getD ""
    let st2 := { st1 with files := fs_write st1.files target (oldContent ++ "\n" ++ text) }
    ({ success := true, error := none,
       message := some ("Created commodity declaration for " ++ symbol),
       backupFile := backupPath }, st2)

/-- The region scan of update_commodity_metadata (source line 697):
unlike the transaction and delete scans it extends over every indented
line, blank or not, and stops only at a non indented line or the end of
the file.  Fuel as in scan_cont. -/
def scan_indent (lines : List String) : Nat → Nat → Nat
  | 0, e => e
  | k + 1, e =>
    match lines[e + 1]? with
    | none => e
    | some next =>
      if next.startsWith " " || next.startsWith "\t" then scan_indent lines k (e + 1)
      else e

/-- The 0-based last line of the commodity declaration region. -/
def find_indent_end (lines : List String) (startL : Nat) : Nat :=
  scan_indent lines lines.length startL

/-- update_commodity_metadata: find the commodity declaration for the
symbol; with none, or with a declaration lacking a lineno, fall back to
create_commodity_declaration (the append path).  Otherwise read the file
the declaration lives in (metadata filename, falling back to the main
ledger when absent or falsy), locate its region with the indent only
scan, rebuild the declaration reusing the text of the original header
before the first occurrence of the separator " commodity " (keeping the
original date token verbatim), back the file up and write the spliced
line list.  The int(float(lineno)) conversion always succeeds on the Nat
model; an out of range lineno raises IndexError inside the inner try,
which falls back to create, and a read failure is caught by the outer
try and reported as a failure. -/
def update_commodity_metadata (cfg : Config) (entries : List Entry) (st : SysState)
    (symbol : String) (metadata : List (String × String)) : MutResult × SysState :=
  let found := entries.find? fun e =>
    match e with
    | .commodity _ _ cur => cur == symbol
    | _ => false
  match found with
  | none => create_commodity_declaration cfg entries st symbol metadata none
  | some ce =>
    let target :=
      match ce.meta.filename with
      | some f => if f == "" then cfg.mainFile else f
      | none => cfg.mainFile
    match ce.meta.lineno with
    | none => create_commodity_declaration cfg entries st symbol metadata none
    | some lineno =>
      match fs_read st.files target with
      | none =>
        ({ success := false, error := some "read failed", message := none,
           backupFile := none }, st)
      | some content =>
        let lines := split_lines content
        let startL := lineno - 1
        match lines[startL]? with
        | none => create_commodity_declaration cfg entries st symbol metadata none
        | some header =>
          let endL := find_indent_end lines startL
          let headerBefore := (header.splitOn " commodity ").headD header
          let declLines := (headerBefore ++ " commodity " ++ symbol) ::
            commodity_meta_lines metadata
          let newLines := lines.take startL ++ declLines ++ lines.drop (endL + 1)
          let st1 := { st with backups := st.backups ++ [(target, content)] }
          let st2 := { st1 with
            files := fs_write st1.files target (String.intercalate "\n" newLines) }
          ({ success := true, error := none,
             message := some ("Updated metadata for " ++ symbol),
             backupFile := some (target ++ ".backup") }, st2)

/-- A transaction whose meta carries no lineno, as a pending update
target. -/
def txn_without_lineno : Entry :=
  .transaction ⟨some "main.beancount", none, []⟩ 20240102 "*" none "Lunch" [] []
    [⟨"Assets:Cash", some ("-5.00", "USD")⟩, ⟨"Expenses:Food", some ("5.00", "USD")⟩]

/-- C2 counterexample: the claim says every update operation on a
directive found by identity but lacking lineno falls back to a create
and succeeds, never reporting the condition as an error.  The
transaction update path does the opposite: on a transaction found by id
with no lineno it returns success false with the structured error Could
not locate transaction in file, and no append happens. -/
theorem c2_counterexample :
    (update_transaction_in_file ⟨"main.beancount", true, 20240101⟩ [txn_without_lineno]
      ⟨[("main.beancount", "; ledger")], []⟩ (generate_entry_id txn_without_lineno)
      empty_txn_data).1 =
    { success := false, error := some "Could not locate transaction in file",
      message := none, backupFile := none } := by
  rfl

/-- C2 amended: on the commodity metadata update path, a declaration
found for the symbol but lacking lineno falls back to
create_commodity_declaration (an append) and succeeds with no error
(provided the chosen target file exists, so that the backup copy does
not raise); on the transaction update path, a transaction found by id
but lacking lineno is reported as the structured failure Could not
locate transaction in file and the file contents are left unchanged. -/
theorem c2_missing_lineno (cfg : Config) (entries : List Entry) (st : SysState)
    (symbol : String) (metadata : List (String × String)) (tid : String)
    (upd : TxnData) (ce tx : Entry)
    (hc : (entries.find? fun e =>
        match e with
        | .commodity _ _ cur => cur == symbol
        | _ => false) = some ce)
    (hcl : ce.meta.lineno = none)
    (ht : find_transaction_by_id entries tid = some tx)
    (htl : tx.meta.lineno = none)
    (hbk : (fs_read st.files (choose_target_file cfg.mainFile entries symbol)).isSome)
    (hmain : (fs_read st.files cfg.mainFile).isSome) :
    update_commodity_metadata cfg entries st symbol metadata =
      create_commodity_declaration cfg entries st symbol metadata none ∧
    (update_commodity_metadata cfg entries st symbol metadata).1.success = true ∧
    (update_commodity_metadata cfg entries st symbol metadata).1.error = none ∧
    (update_transaction_in_file cfg entries st tid upd).1.success = false ∧
    (update_transaction_in_file cfg entries st tid upd).1.error =
      some "Could not locate transaction in file" ∧
    ((update_transaction_in_file cfg entries st tid upd).2).files = st.files := by
  obtain ⟨tcontent, htc⟩ := Option.isSome_iff_exists.mp hbk
  obtain ⟨mcontent, hmc⟩ := Option.isSome_iff_exists.mp hmain
  have hfall : update_commodity_metadata cfg entries st symbol metadata =
      create_commodity_declaration cfg entries st symbol metadata none := by
    simp [update_commodity_metadata, hc, hcl]
  have hcreate :
      (create_commodity_declaration cfg entries st symbol metadata none).1.success = true ∧
      (create_commodity_declaration cfg entries st symbol metadata none).1.error = none := by
    cases hb : cfg.createBackups <;>
      simp [create_commodity_declaration, create_backup_step, hb, htc]
  have htxn :
      (update_transaction_in_file cfg entries st tid upd).1.success = false ∧
      (update_transaction_in_file cfg entries st tid upd).1.error =
        some "Could not locate transaction in file" ∧
      ((update_transaction_in_file cfg entries st tid upd).2).files = st.files := by
    cases hb : cfg.createBackups <;>
      simp [update_transaction_in_file, create_backup_step, ht, hb, hmc, htl]
  refine ⟨hfall, ?_, ?_, htxn.1, htxn.2.1, htxn.2.2⟩
  · rw [hfall]; exact hcreate.1
  · rw [hfall]; exact hcreate.2

/-- A commodity declaration for BTC whose meta carries no lineno. -/
def commodity_btc_no_lineno : Entry :=
  .commodity ⟨none, none, []⟩ 20240101 "BTC"

/-- Concrete run of the amended missing lineno behaviour: a snapshot
holding a commodity declaration without lineno and a transaction without
lineno, over a one file ledger state. -/
theorem c2_missing_lineno_witness :
    (([commodity_btc_no_lineno, txn_without_lineno].find? fun e =>
        match e with
        | .commodity _ _ cur => cur == "BTC"
        | _ => false) = some commodity_btc_no_lineno) ∧
    (find_transaction_by_id [commodity_btc_no_lineno, txn_without_lineno]
        (generate_entry_id txn_without_lineno) = some txn_without_lineno) ∧
    (update_commodity_metadata ⟨"main.beancount", true, 20240101⟩
        [commodity_btc_no_lineno, txn_without_lineno]
        ⟨[("main.beancount", "; ledger")], []⟩ "BTC" [("logo", "url")] =
      create_commodity_declaration ⟨"main.beancount", true, 20240101⟩
        [commodity_btc_no_lineno, txn_without_lineno]
        ⟨[("main.beancount", "; ledger")], []⟩ "BTC" [("logo", "url")] none ∧
     (update_commodity_metadata ⟨"main.beancount", true, 20240101⟩
        [commodity_btc_no_lineno, txn_without_lineno]
        ⟨[("main.beancount", "; ledger")], []⟩ "BTC" [("logo", "url")]).1.success = true ∧
     (update_commodity_metadata ⟨"main.beancount", true, 20240101⟩
        [commodity_btc_no_lineno, txn_without_lineno]
        ⟨[("main.beancount", "; ledger")], []⟩ "BTC" [("logo", "url")]).1.error = none ∧
     (update_transaction_in_file ⟨"main.beancount", true, 20240101⟩
        [commodity_btc_no_lineno, txn_without_lineno]
        ⟨[("main.beancount", "; ledger")], []⟩
        (generate_entry_id txn_without_lineno) empty_txn_data).1.success = false ∧
     (update_transaction_in_file ⟨"main.beancount", true, 20240101⟩
        [commodity_btc_no_lineno, txn_without_lineno]
        ⟨[("main.beancount", "; ledger")], []⟩
        (generate_entry_id txn_without_lineno) empty_txn_data).1.error =
       some "Could not locate transaction in file" ∧
     ((update_transaction_in_file ⟨"main.beancount", true, 20240101⟩
        [commodity_btc_no_lineno, txn_without_lineno]
        ⟨[("main.beancount", "; ledger")], []⟩
        (generate_entry_id txn_without_lineno) empty_txn_data).2).files =
       (⟨[("main.beancount", "; ledger")], []⟩ : SysState).files) :=
  ⟨rfl, rfl,
   c2_missing_lineno ⟨"main.beancount", true, 20240101⟩
     [commodity_btc_no_lineno, txn_without_lineno]
     ⟨[("main.beancount", "; ledger")], []⟩ "BTC" [("logo", "url")]
     (generate_entry_id txn_without_lineno) empty_txn_data
     commodity_btc_no_lineno txn_without_lineno
     rfl rfl rfl rfl (by rfl) (by rfl)⟩

/-- Reading back the path just written returns the new content. -/
theorem fs_read_write (fs : List (String × String)) (p c : String) :
    fs_read (fs_write fs p c) p = some c := by
  simp [fs_read, fs_write, List.find?]

/-- The declaration body has one line per metadata pair. -/
theorem length_commodity_meta_lines (metadata : List (String × String)) :
    (commodity_meta_lines metadata).length = metadata.length := by
  simp [commodity_meta_lines]

/-- In a splice, every index below the region start reads the original
line. -/
theorem splice_getElem_lt (lines decl : List String) (s d i : Nat)
    (hs : s ≤ lines.length) (hi : i < s) :
    (lines.take s ++ decl ++ lines.drop d)[i]? = lines[i]? := by
  have hlen : (lines.take s).length = s := by
    simp only [List.length_take]
    omega
  rw [List.getElem?_append_left (by simp only [List.length_append, hlen]; omega)]
  rw [List.getElem?_append_left (by rw [hlen]; exact hi)]
  exact List.getElem?_take_of_lt hi

/-- In a splice, the region start reads the head of the replacement. -/
theorem splice_getElem_start (lines : List String) (x : String) (t : List String)
    (s d : Nat) (hs : s ≤ lines.length) :
    (lines.take s ++ (x :: t) ++ lines.drop d)[s]? = some x := by
  have hlen : (lines.take s).length = s := by
    simp only [List.length_take]
    omega
  rw [List.getElem?_append_left
    (by simp only [List.length_append, hlen, List.length_cons]; omega)]
  rw [List.getElem?_append_right hlen.le, hlen, Nat.sub_self]
  simp

/-- In a splice, every index past the replacement reads the original
line past the dropped region. -/
theorem splice_getElem_after (lines decl : List String) (s d j : Nat)
    (hs : s ≤ lines.length) :
    (lines.take s ++ decl ++ lines.drop d)[s + decl.length + j]? = lines[d + j]? := by
  have hlen : (lines.take s).length = s := by
    simp only [List.length_take]
    omega
  have hlen2 : (lines.take s ++ decl).length = s + decl.length := by
    simp [List.length_append, hlen]
  rw [List.getElem?_append_right (by rw [hlen2]; omega), hlen2]
  have h1 : s + decl.length + j - (s + decl.length) = j := by omega
  rw [h1, List.getElem?_drop]

/-- C6: an in place commodity metadata edit on a declaration with a
known line number writes back exactly the spliced line list; in it,
every line below the region start keeps its index and content, every
line above the region end reappears unchanged right after the new
declaration, and the new header line reuses verbatim the text of the
original header before the first occurrence of the separator
" commodity " (the date token), followed by " commodity " and the
symbol. -/
theorem c6_commodity_inplace_frame (cfg : Config) (entries : List Entry) (st : SysState)
    (symbol : String) (metadata : List (String × String)) (ce : Entry) (L : Nat)
    (content header : String)
    (hc : (entries.find? fun e =>
        match e with
        | .commodity _ _ cur => cur == symbol
        | _ => false) = some ce)
    (hl : ce.meta.lineno = some L)
    (hread : fs_read st.files
        (match ce.meta.filename with
          | some f => if f == "" then cfg.mainFile else f
          | none => cfg.mainFile) = some content)
    (hheader : (split_lines content)[L - 1]? = some header) :
    let lines := split_lines content
    let startL := L - 1
    let endL := find_indent_end lines startL
    let target :=
      match ce.meta.filename with
      | some f => if f == "" then cfg.mainFile else f
      | none => cfg.mainFile
    let headerBefore := (header.splitOn " commodity ").headD header
    let newLines := lines.take startL ++
      ((headerBefore ++ " commodity " ++ symbol) :: commodity_meta_lines metadata) ++
      lines.drop (endL + 1)
    fs_read ((update_commodity_metadata cfg entries st symbol metadata).2).files target =
      some (String.intercalate "\n" newLines) ∧
    newLines[startL]? = some (headerBefore ++ " commodity " ++ symbol) ∧
    (∀ i, i < startL → newLines[i]? = lines[i]?) ∧
    (∀ j, newLines[startL + 1 + metadata.length + j]? = lines[endL + 1 + j]?) := by
  intro lines startL endL target headerBefore newLines
  have hlt : startL < lines.length := by
    have := List.getElem?_eq_some_iff.mp hheader
    exact this.1
  have hlen_take : (lines.take startL).length = startL := by
    simp only [List.length_take]
    omega
  have hupdate : ((update_commodity_metadata cfg entries st symbol metadata).2).files =
      fs_write st.files target (String.intercalate "\n" newLines) := by
    simp only [update_commodity_metadata, hc, hl, hread, hheader]
  refine ⟨?_, ?_, ?_, ?_⟩
  · rw [hupdate, fs_read_write]
  · exact splice_getElem_start lines (headerBefore ++ " commodity " ++ symbol)
      (commodity_meta_lines metadata) startL (endL + 1) (Nat.le_of_lt hlt)
  · intro i hi
    exact splice_getElem_lt lines ((headerBefore ++ " commodity " ++ symbol) ::
      commodity_meta_lines metadata) startL (endL + 1) i (Nat.le_of_lt hlt) hi
  · intro j
    have hafter := splice_getElem_after lines
      ((headerBefore ++ " commodity " ++ symbol) :: commodity_meta_lines metadata)
      startL (endL + 1) j (Nat.le_of_lt hlt)
    have hlm : (((headerBefore ++ " commodity " ++ symbol) ::
        commodity_meta_lines metadata)).length = 1 + metadata.length := by
      simp [length_commodity_meta_lines, Nat.add_comm]
    rw [hlm] at hafter
    have hidx : startL + 1 + metadata.length + j = startL + (1 + metadata.length) + j := by
      omega
    rw [hidx]
    exact hafter

/-- The commodity declaration for BTC living at line 1 of the ledger. -/
def c6_ce : Entry :=
  .commodity ⟨some "main.beancount", some 1, []⟩ 20240101 "BTC"

/-- A three line ledger whose first two lines are the BTC declaration and
its metadata continuation, followed by one unrelated line. -/
def c6_content : String :=
  "2024-01-01 commodity BTC\n  name: \"Bitcoin\"\nnext line"

/-- Concrete run of the in place commodity edit frame property. -/
theorem c6_commodity_inplace_frame_witness :
    ((([c6_ce] : List Entry).find? fun e =>
        match e with
        | .commodity _ _ cur => cur == "BTC"
        | _ => false) = some c6_ce) ∧
    (c6_ce.meta.lineno = some 1) ∧
    (fs_read (⟨[("main.beancount", c6_content)], []⟩ : SysState).files
        (match c6_ce.meta.filename with
          | some f => if f == "" then
              (⟨"main.beancount", true, 20240101⟩ : Config).mainFile else f
          | none => (⟨"main.beancount", true, 20240101⟩ : Config).mainFile) =
      some c6_content) ∧
    ((split_lines c6_content)[(1 : Nat) - 1]? = some "2024-01-01 commodity BTC") ∧
    (let lines := split_lines c6_content
     let startL := (1 : Nat) - 1
     let endL := find_indent_end lines startL
     let target :=
       match c6_ce.meta.filename with
       | some f => if f == "" then
           (⟨"main.beancount", true, 20240101⟩ : Config).mainFile else f
       | none => (⟨"main.beancount", true, 20240101⟩ : Config).mainFile
     let headerBefore :=
       ("2024-01-01 commodity BTC".splitOn " commodity ").headD "2024-01-01 commodity BTC"
     let newLines := lines.take startL ++
       ((headerBefore ++ " commodity " ++ "BTC") ::
         commodity_meta_lines [("logo", "url")]) ++
       lines.drop (endL + 1)
     fs_read ((update_commodity_metadata ⟨"main.beancount", true, 20240101⟩ [c6_ce]
         ⟨[("main.beancount", c6_content)], []⟩ "BTC" [("logo", "url")]).2).files target =
       some (String.intercalate "\n" newLines) ∧
     newLines[startL]? = some (headerBefore ++ " commodity " ++ "BTC") ∧
     (∀ i, i < startL → newLines[i]? = lines[i]?) ∧
     (∀ j, newLines[startL + 1 + [("logo", "url")].length + j]? =
       lines[endL + 1 + j]?)) :=
  ⟨rfl, rfl, rfl, rfl,
   c6_commodity_inplace_frame ⟨"main.beancount", true, 20240101⟩ [c6_ce]
     ⟨[("main.beancount", c6_content)], []⟩ "BTC" [("logo", "url")] c6_ce 1
     c6_content "2024-01-01 commodity BTC" rfl rfl rfl rfl⟩

/-- The comparison of the backup cleanup sort: by modification time
ascending, oldest first. -/
def mtime_le (a b : Nat) : Bool :=
  decide (a ≤ b)

/-- cleanup_old_backups over the backup directory of one target file,
modelled as the list of the modification times of its backup files:
when the count exceeds max_backup_files, sort oldest first and remove
the first count - max files, retaining the rest; otherwise remove
nothing.  The result is the retained set (in mtime order when a cleanup
ran; removal only changes which files exist, not their content). -/
def cleanup_old_backups (maxBackupFiles : Nat) (backupMtimes : List Nat) : List Nat :=
  if backupMtimes.length > maxBackupFiles then
    (sortBy mtime_le backupMtimes).drop (backupMtimes.length - maxBackupFiles)
  else backupMtimes

/-- create_backup_if_enabled over the backup directory: when enabled,
copy the target to a fresh backup file (modification time now, appended
to the directory listing) and run the cleanup only when
max_backup_files is positive. -/
def create_backup_if_enabled (createBackups : Bool) (maxBackupFiles : Nat)
    (backupMtimes : List Nat) (now : Nat) : Option Nat × List Nat :=
  if createBackups then
    let afterCopy := backupMtimes ++ [now]
    if maxBackupFiles > 0 then
      (some now, cleanup_old_backups maxBackupFiles afterCopy)
    else (some now, afterCopy)
  else (none, backupMtimes)

/-- Inserting into an ascending list of times keeps it ascending. -/
theorem sorted_insertBy_nat (x : Nat) (l : List Nat)
    (hl : l.Pairwise fun a b => a ≤ b) :
    (insertBy mtime_le x l).Pairwise fun a b => a ≤ b := by
  induction l with
  | nil => simp [insertBy]
  | cons y ys ih =>
    rcases List.pairwise_cons.mp hl with ⟨hy, hys⟩
    cases h : mtime_le x y with
    | true =>
      have hxy : x ≤ y := by simpa [mtime_le] using h
      rw [insertBy_cons_pos mtime_le x y ys h]
      refine List.pairwise_cons.mpr ⟨?_, List.pairwise_cons.mpr ⟨hy, hys⟩⟩
      intro z hz
      rcases List.mem_cons.mp hz with rfl | hz
      · exact hxy
      · exact Nat.le_trans hxy (hy z hz)
    | false =>
      have hxy : y ≤ x := by
        have h2 : ¬x ≤ y := by simpa [mtime_le] using h
        omega
      rw [insertBy_cons_neg mtime_le x y ys h]
      refine List.pairwise_cons.mpr ⟨?_, ih hys⟩
      intro z hz
      rcases (mem_insertBy mtime_le x z ys).mp hz with rfl | hz
      · exact hxy
      · exact hy z hz

/-- The cleanup sort yields an ascending list of modification times. -/
theorem sorted_sortBy_nat (l : List Nat) :
    (sortBy mtime_le l).Pairwise fun a b => a ≤ b := by
  induction l with
  | nil => simp [sortBy]
  | cons x xs ih => exact sorted_insertBy_nat x (sortBy mtime_le xs) ih

/-- C8: after a backup creation with a positive cap, the retained backup
files for the target number at most the cap, and every removed backup
(the first length - cap of the mtime sorted listing, oldest first) is no
newer than every retained one; with the cap zero the cleanup never runs,
so the backup directory keeps every old backup plus the new one. -/
theorem c8_backup_retention (cap : Nat) (backupMtimes : List Nat) (now : Nat)
    (hcap : 0 < cap) :
    ((create_backup_if_enabled true cap backupMtimes now).2).length ≤ cap ∧
    (∀ x ∈ (sortBy mtime_le (backupMtimes ++ [now])).take
        ((backupMtimes ++ [now]).length - cap),
      ∀ y ∈ (create_backup_if_enabled true cap backupMtimes now).2, x ≤ y) ∧
    create_backup_if_enabled true 0 backupMtimes now =
      (some now, backupMtimes ++ [now]) := by
  have hres : (create_backup_if_enabled true cap backupMtimes now).2 =
      cleanup_old_backups cap (backupMtimes ++ [now]) := by
    simp [create_backup_if_enabled, hcap]
  refine ⟨?_, ?_, by simp [create_backup_if_enabled]⟩
  · rw [hres]
    by_cases hlen : (backupMtimes ++ [now]).length > cap
    · simp only [cleanup_old_backups, hlen, if_true, List.length_drop, length_sortBy]
      omega
    · simp only [cleanup_old_backups, hlen, if_false]
      omega
  · intro x hx y hy
    rw [hres] at hy
    by_cases hlen : (backupMtimes ++ [now]).length > cap
    · simp only [cleanup_old_backups, hlen, if_true] at hy
      have hsorted : (sortBy mtime_le (backupMtimes ++ [now])).Pairwise
          fun a b => a ≤ b := sorted_sortBy_nat _
      have hsp : (((sortBy mtime_le (backupMtimes ++ [now])).take
            ((backupMtimes ++ [now]).length - cap)) ++
          ((sortBy mtime_le (backupMtimes ++ [now])).drop
            ((backupMtimes ++ [now]).length - cap))).Pairwise
          (fun a b => a ≤ b) := by
        rw [List.take_append_drop]
        exact hsorted
      exact (List.pairwise_append.mp hsp).2.2 x hx y hy
    · have hzero : (backupMtimes ++ [now]).length - cap = 0 := by omega
      rw [hzero] at hx
      simp at hx

/-- Concrete run of the retention property: a cap of two, three old
backups and a fresh one. -/
theorem c8_backup_retention_witness :
    0 < 2 ∧
    (((create_backup_if_enabled true 2 [5, 3, 9] 10).2).length ≤ 2 ∧
     (∀ x ∈ (sortBy mtime_le ([5, 3, 9] ++ [10])).take
         (([5, 3, 9] ++ [10]).length - 2),
       ∀ y ∈ (create_backup_if_enabled true 2 [5, 3, 9] 10).2, x ≤ y) ∧
     create_backup_if_enabled true 0 [5, 3, 9] 10 =
       (some 10, [5, 3, 9] ++ [10])) :=
  ⟨by decide, c8_backup_retention 2 [5, 3, 9] 10 (by decide)⟩

end JournalApi
